import Mathlib

/-
  Verification of the registration and stitching engine in
  src/broadside/scripts/register_and_stitch.py.

  The Python source is shallowly embedded: pure computations become Lean
  functions; the thread-pool executors are modelled by an explicit
  completion order (the order in which futures finish), quantified over
  all possible orders; numpy float values that only enter through
  comparisons are modelled as rationals, with np.inf modelled as the top
  element of WithTop Rat; code that can raise returns Option or Except.
  External collaborators that live in the ashlar library rather than in
  this repository (ashlar.reg.EdgeAligner.intersection, register_pair,
  ashlar.utils.register, ashlar.utils.paste, numpy percentile, the tile
  reader and the illumination correction) are abstracted as function
  parameters; everything written in register_and_stitch.py itself is
  translated line by line.
-/

namespace Broadside

/-! ## Task executor (execute_parallel_with_ordered_results)

  The Python function submits func(*args[i]) for every i, records the
  future-to-index map, and as futures complete (in an arbitrary order)
  writes future.result() into results[index].  The completion order of
  the futures is modelled by an explicit list of indices; each entry of
  that list is one iteration of the as_completed loop. -/

def execute_parallel_with_ordered_results {A B : Type} (func : A → B)
    (args : List A) (completionOrder : List Nat) : List (Option B) :=
  completionOrder.foldl (fun results i => results.set i ((args[i]?).map func))
    (List.replicate args.length none)

/-- Folding index writes over any completion order never changes the length
of the results list. -/
theorem foldl_set_length {B : Type} (g : Nat → Option B) (ord : List Nat)
    (l : List (Option B)) :
    (ord.foldl (fun results i => results.set i (g i)) l).length = l.length := by
  induction ord generalizing l with
  | nil => rfl
  | cons j rest ih => simp [List.foldl_cons, ih, List.length_set]

/-- A results slot whose index never completes keeps its initial value. -/
theorem foldl_set_getElem?_not_mem {B : Type} (g : Nat → Option B)
    (ord : List Nat) (l : List (Option B)) (i : Nat) (hi : i ∉ ord) :
    (ord.foldl (fun results j => results.set j (g j)) l)[i]? = l[i]? := by
  induction ord generalizing l with
  | nil => rfl
  | cons j rest ih =>
    have hji : i ≠ j := fun h => hi (h ▸ List.mem_cons_self j rest)
    have hrest : i ∉ rest := fun h => hi (List.mem_cons_of_mem j h)
    simp only [List.foldl_cons]
    rw [ih _ hrest, List.getElem?_set_ne (fun h => hji h.symm)]

/-- A results slot whose index completes at least once ends up holding the
value computed for that index, regardless of the completion order. -/
theorem foldl_set_getElem?_mem {B : Type} (g : Nat → Option B)
    (ord : List Nat) (l : List (Option B)) (i : Nat) (hl : i < l.length)
    (hi : i ∈ ord) :
    (ord.foldl (fun results j => results.set j (g j)) l)[i]? = some (g i) := by
  induction ord generalizing l with
  | nil => exact absurd hi (List.not_mem_nil i)
  | cons j rest ih =>
    simp only [List.foldl_cons]
    by_cases hrest : i ∈ rest
    · exact ih _ (by simpa [List.length_set] using hl) hrest
    · have hij : i = j := by
        rcases List.mem_cons.mp hi with h | h
        · exact h
        · exact absurd h hrest
      subst hij
      rw [foldl_set_getElem?_not_mem g rest _ i hrest,
        List.getElem?_set_eq_of_lt _ hl]

/-! ## ParallelLayerAligner.register_all

  The Python method runs self.register over the tile indices 0..n-1 via
  the ordered executor, unzips the (shift, error) pairs and stores them
  in self.shifts and self.errors.  The shift is a pair of floats and the
  error a float; both are modelled as rationals. -/

def layer_register_all (register : Nat → (Rat × Rat) × Rat) (n : Nat)
    (completionOrder : List Nat) :
    List (Option (Rat × Rat)) × List (Option Rat) :=
  let results :=
    execute_parallel_with_ordered_results register (List.range n) completionOrder
  (results.map (Option.map Prod.fst), results.map (Option.map Prod.snd))

/-- C1: the ordered executor returns a list of N results in which slot i
holds the value computed from argument tuple i, for every completion order
of the parallel tasks that completes each task; no result is dropped and no
index is mismatched.  The same mapping carries over to
ParallelLayerAligner.register_all: shifts[i] and errors[i] come from
register(i) for tile i. -/
theorem execute_parallel_ordered_results_correct {A B : Type} (func : A → B)
    (args : List A) (completionOrder : List Nat)
    (hall : ∀ i, i < args.length → i ∈ completionOrder) :
    ((execute_parallel_with_ordered_results func args completionOrder).length
        = args.length ∧
      ∀ i (hi : i < args.length),
        (execute_parallel_with_ordered_results func args completionOrder)[i]?
          = some (some (func args[i]))) ∧
    ∀ (register : Nat → (Rat × Rat) × Rat) (n : Nat) (ord : List Nat),
      (∀ i, i < n → i ∈ ord) →
      ∀ i, i < n →
        (layer_register_all register n ord).1[i]? = some (some (register i).1) ∧
        (layer_register_all register n ord).2[i]? = some (some (register i).2) := by
  constructor
  · constructor
    · have h := foldl_set_length (fun i => (args[i]?).map func)
        completionOrder (List.replicate args.length none)
      simpa [execute_parallel_with_ordered_results] using h
    · intro i hi
      have := foldl_set_getElem?_mem (fun j => (args[j]?).map func)
        completionOrder (List.replicate args.length none) i
        (by simpa using hi) (hall i hi)
      simpa [execute_parallel_with_ordered_results, List.getElem?_eq_getElem hi]
        using this
  · intro register n ord hord i hi
    have hlen : i < (List.range n).length := by simpa using hi
    have hres := foldl_set_getElem?_mem
      (fun j => ((List.range n)[j]?).map register) ord
      (List.replicate (List.range n).length none) i
      (by simpa using hi) (hord i hi)
    have hval : ((List.range n)[i]?).map register = some (register i) := by
      rw [List.getElem?_range hi]; rfl
    simp only [hval] at hres
    constructor
    · simp only [layer_register_all, execute_parallel_with_ordered_results,
        List.getElem?_map]
      rw [hres]; rfl
    · simp only [layer_register_all, execute_parallel_with_ordered_results,
        List.getElem?_map]
      rw [hres]; rfl

/-- C1 witness: a concrete three-task run whose futures complete in the
order 2, 0, 1, 0 still maps every result back to its own argument. -/
theorem execute_parallel_ordered_results_correct_witness :
    (∀ i, i < [10, 20, 30].length → i ∈ [2, 0, 1, 0]) ∧
    (execute_parallel_with_ordered_results (fun x => x + 1) [10, 20, 30]
        [2, 0, 1, 0])[1]? = some (some 21) := by
  refine ⟨by decide, ?_⟩
  exact ((execute_parallel_ordered_results_correct (fun x => x + 1)
    [10, 20, 30] [2, 0, 1, 0] (by decide)).1.2 1 (by decide))

/-! ## ParallelEdgeAligner.compute_threshold

  State read by the method: the neighbors graph edge list, the number of
  tiles (metadata.num_images) and the tile height (metadata.size[0]).
  The per-edge quantity self.intersection(t1, t2).shape.min() is computed
  by ashlar.reg (outside this repository) from the nominal positions, so
  it is carried as an abstract function minDim. -/

structure Aligner where
  edges : List (Nat × Nat)
  numImages : Nat
  size0 : Nat
  minDim : Nat → Nat → Nat

/-- Per-edge minimal intersection dimensions, the local variable widths. -/
def widths (a : Aligner) : List Nat :=
  a.edges.map (fun e => a.minDim e.1 e.2)

/-- Strip width w = widths.max().  numpy max on a nonempty array is the
list maximum; the surrounding code only evaluates it when the graph has
more than one edge, hence on a nonempty array. -/
def strip_w (a : Aligner) : Nat :=
  (widths a).foldl max 0

/-- max_offset = self.metadata.size[0] - w, a Python int that can be zero
or negative, hence an integer here. -/
def max_offset (a : Aligner) : Int :=
  (a.size0 : Int) - strip_w a

/-- num_distant_pairs = num_tiles * (num_tiles - 1) // 2 - len(edges).
The neighbors graph is simple, so its edge count never exceeds the number
of unordered tile pairs and Nat subtraction agrees with Python int
subtraction. -/
def num_distant_pairs (a : Aligner) : Nat :=
  a.numImages * (a.numImages - 1) / 2 - a.edges.length

/-- n = 1000 if num_distant_pairs > 8 else (num_distant_pairs + 1) * 10. -/
def n_samples (a : Aligner) : Nat :=
  if 8 < num_distant_pairs a then 1000 else (num_distant_pairs a + 1) * 10

/-- Symmetric membership test matching (t1, t2) in self.neighbors_graph.edges
for an undirected networkx graph. -/
def edge_mem (a : Aligner) (t1 t2 : Nat) : Bool :=
  a.edges.contains (t1, t2) || a.edges.contains (t2, t1)

/-- Acceptance test of one candidate strip pair, lines 169 to 187 of the
source.  The neighbor branch consults intersection offsets computed by
ashlar.reg, abstracted as nbrOk. -/
def strip_ok (a : Aligner) (nbrOk : Nat → Nat → Nat → Nat → Bool)
    (w t1 t2 o1 o2 : Nat) : Bool :=
  if t1 ≠ t2 ∧ ¬ edge_mem a t1 t2 = true then true
  else if t1 = t2 ∧ (w : Int) < ((o1 : Int) - o2).natAbs then true
  else if edge_mem a t1 t2 then nbrOk t1 t2 o1 o2
  else false

def max_tries : Nat := 100

/-- numpy RandomState.randint(high) draws uniformly from 0..high-1 and
raises ValueError when high <= 0; the raw randomness is an abstract
stream rand consumed at position k. -/
def randint (rand : Nat → Nat) (high : Int) (k : Nat) : Option Nat :=
  if high ≤ 0 then none else some (rand k % high.toNat)

/-- One draw of the inner retry loop: t1, t2 from randint(num_images),
o1, o2 from randint(max_offset), at stream positions determined by the
sample index i and the retry index t. -/
def draw_at (a : Aligner) (rand : Nat → Nat) (maxOff : Int) (i t : Nat) :
    Option (Nat × Nat × Nat × Nat) :=
  let k := (i * max_tries + t) * 4
  match randint rand (a.numImages : Int) k, randint rand (a.numImages : Int) (k + 1),
      randint rand maxOff (k + 2), randint rand maxOff (k + 3) with
  | some t1, some t2, some o1, some o2 => some (t1, t2, o1, o2)
  | _, _, _, _ => none

/-- The retry loop for sample i: fuel counts the remaining retries after
the current one, so the first call uses fuel = max_tries - 1.  When the
draw passes strip_ok the loop breaks; when the fuel is exhausted the last
draw is kept anyway (the source logs a warning via warn_data and falls
through).  The returned Nat is the number of draw attempts consumed. -/
def strip_try_loop (a : Aligner) (nbrOk : Nat → Nat → Nat → Nat → Bool)
    (rand : Nat → Nat) (w : Nat) (maxOff : Int) (i : Nat) :
    Nat → Nat → Option (((Nat × Nat) × Nat × Nat) × Nat)
  | t, fuel =>
    match draw_at a rand maxOff i t with
    | none => none
    | some (t1, t2, o1, o2) =>
      if strip_ok a nbrOk w t1 t2 o1 o2 then some (((t1, t2), o1, o2), t + 1)
      else
        match fuel with
        | 0 => some (((t1, t2), o1, o2), t + 1)
        | fuel' + 1 => strip_try_loop a nbrOk rand w maxOff i (t + 1) fuel'

/-- pairs[i] and offsets[i] for one sample index, dropping the attempt
count. -/
def sample_one (a : Aligner) (nbrOk : Nat → Nat → Nat → Nat → Bool)
    (rand : Nat → Nat) (w : Nat) (maxOff : Int) (i : Nat) :
    Option ((Nat × Nat) × Nat × Nat) :=
  (strip_try_loop a nbrOk rand w maxOff i 0 (max_tries - 1)).map Prod.fst

/-- The full sampling loop for i in range(n); none models a ValueError
escaping from randint. -/
def sample_pairs (a : Aligner) (nbrOk : Nat → Nat → Nat → Nat → Bool)
    (rand : Nat → Nat) (w : Nat) (maxOff : Int) (n : Nat) :
    Option (List ((Nat × Nat) × Nat × Nat)) :=
  (List.range n).mapM (sample_one a nbrOk rand w maxOff)

structure ThresholdResult where
  errors_negative_sampled : List Rat
  max_error : WithTop Rat
  deriving DecidableEq

/-- compute_threshold.  The external pieces are abstracted: nbrOk is the
intersection-offset test of the neighbor branch, rand the random stream,
registerStrip the error returned by ashlar.utils.register on one sampled
strip pair (run through the ordered parallel executor, whose
index-preserving contract makes the error list equal to the in-order
map used here), and pct the numpy percentile at the false positive
fraction.  none models a raised exception. -/
def compute_threshold (a : Aligner) (nbrOk : Nat → Nat → Nat → Nat → Bool)
    (rand : Nat → Nat) (registerStrip : Nat → Nat → Nat → Nat → Rat)
    (pct : List Rat → Rat) : Option ThresholdResult :=
  if a.edges.length ≤ 1 then some ⟨[], ⊤⟩
  else
    match sample_pairs a nbrOk rand (strip_w a) (max_offset a) (n_samples a) with
    | none => none
    | some ps =>
      let errors := ps.map (fun p => registerStrip p.1.1 p.1.2 p.2.1 p.2.2)
      some ⟨errors, (pct errors : Rat)⟩

/-- C2: on a graph with at most one edge, compute_threshold records an
empty negative-error sample, sets the threshold to the unbounded
accept-all value (np.inf, the top element), performs no sampling and no
registration (the result does not depend on the random stream, the
neighbor test, the strip registration or the percentile), and returns
without raising. -/
theorem compute_threshold_few_edges (a : Aligner)
    (nbrOk : Nat → Nat → Nat → Nat → Bool) (rand : Nat → Nat)
    (registerStrip : Nat → Nat → Nat → Nat → Rat) (pct : List Rat → Rat)
    (h : a.edges.length ≤ 1) :
    compute_threshold a nbrOk rand registerStrip pct
      = some ⟨[], ⊤⟩ := by
  simp [compute_threshold, h]

/-- C2 witness: a single-edge layer takes the accept-all branch. -/
theorem compute_threshold_few_edges_witness :
    (Aligner.mk [(0, 1)] 2 100 (fun _ _ => 10)).edges.length ≤ 1 ∧
    compute_threshold (Aligner.mk [(0, 1)] 2 100 (fun _ _ => 10))
        (fun _ _ _ _ => true) (fun _ => 0) (fun _ _ _ _ => 0) (fun _ => 0)
      = some ⟨[], ⊤⟩ :=
  ⟨by decide,
    compute_threshold_few_edges _ _ _ _ _ (by decide)⟩

/-! ## C3: the strip width is the largest, not the smallest, per-edge
  minimal intersection dimension (widths.max() in the source). -/

theorem init_le_foldl_max (l : List Nat) (b : Nat) : b ≤ l.foldl max b := by
  induction l generalizing b with
  | nil => exact le_refl b
  | cons y ys ih => exact le_trans (le_max_left b y) (ih (max b y))

theorem le_foldl_max (l : List Nat) (b x : Nat) (hx : x ∈ l) :
    x ≤ l.foldl max b := by
  induction l generalizing b with
  | nil => exact absurd hx (List.not_mem_nil x)
  | cons y ys ih =>
    rcases List.mem_cons.mp hx with h | h
    · subst h
      calc x ≤ max b x := le_max_right b x
        _ ≤ ys.foldl max (max b x) := init_le_foldl_max ys (max b x)
    · exact ih (max b y) h

theorem foldl_max_eq_or_mem (l : List Nat) (b : Nat) :
    l.foldl max b = b ∨ l.foldl max b ∈ l := by
  induction l generalizing b with
  | nil => exact Or.inl rfl
  | cons y ys ih =>
    rcases ih (max b y) with h | h
    · rcases Nat.le_total b y with hby | hyb
      · right
        rw [List.foldl_cons, h, max_eq_right hby]
        exact List.mem_cons_self y ys
      · left
        rw [List.foldl_cons, h, max_eq_left hyb]
    · exact Or.inr (List.mem_cons_of_mem y h)

def exAlignerC3 : Aligner :=
  ⟨[(0, 1), (1, 2)], 3, 10, fun t1 _ => if t1 = 0 then 3 else 5⟩

/-- C3 counterexample: on a two-edge layer whose per-edge minimal
intersection dimensions are 3 and 5, the smallest overlap-region
dimension across the edges is 3, but the code sets the strip width w to
widths.max() = 5, so w is not the minimum claimed by the spec. -/
theorem strip_w_not_smallest :
    (widths exAlignerC3).min? = some 3 ∧ strip_w exAlignerC3 ≠ 3 := by
  decide

/-- C3 amended: for every layer with at least one edge, the sampling
strip width w equals the largest over the graph edges of each edge's
minimal intersection dimension; it is attained on some edge and bounds
every edge's minimal intersection dimension from above. -/
theorem strip_w_is_largest (a : Aligner) (h : a.edges ≠ []) :
    (∃ e ∈ a.edges, strip_w a = a.minDim e.1 e.2) ∧
    ∀ e ∈ a.edges, a.minDim e.1 e.2 ≤ strip_w a := by
  constructor
  · rcases foldl_max_eq_or_mem (widths a) 0 with h0 | hmem
    · rcases List.exists_mem_of_ne_nil a.edges h with ⟨e0, he0⟩
      refine ⟨e0, he0, ?_⟩
      have hle : a.minDim e0.1 e0.2 ≤ strip_w a :=
        le_foldl_max _ 0 _ (List.mem_map_of_mem _ he0)
      have : strip_w a = 0 := h0
      omega
    · rcases List.mem_map.mp hmem with ⟨e, he, heq⟩
      exact ⟨e, he, heq.symm⟩
  · intro e he
    exact le_foldl_max _ 0 _ (List.mem_map_of_mem _ he)

/-- C3 witness for the amended statement, on the two-edge layer above:
the strip width 5 is attained on an edge and bounds both edges. -/
theorem strip_w_is_largest_witness :
    exAlignerC3.edges ≠ [] ∧
    ((∃ e ∈ exAlignerC3.edges, strip_w exAlignerC3 = exAlignerC3.minDim e.1 e.2) ∧
      ∀ e ∈ exAlignerC3.edges, exAlignerC3.minDim e.1 e.2 ≤ strip_w exAlignerC3) :=
  ⟨by decide, strip_w_is_largest exAlignerC3 (by decide)⟩

/-- C8: in compute_threshold with more than one edge, the number of
sampled strip pairs is 1000 whenever the number of non-adjacent tile
pairs, num_tiles * (num_tiles - 1) / 2 minus the edge count, exceeds 8,
and otherwise is the heuristic count (num_distant_pairs + 1) * 10. -/
theorem n_samples_heuristic (a : Aligner) :
    (8 < a.numImages * (a.numImages - 1) / 2 - a.edges.length →
      n_samples a = 1000) ∧
    (a.numImages * (a.numImages - 1) / 2 - a.edges.length ≤ 8 →
      n_samples a
        = (a.numImages * (a.numImages - 1) / 2 - a.edges.length + 1) * 10) := by
  constructor
  · intro h
    simp [n_samples, num_distant_pairs, h]
  · intro h
    have h' : ¬ 8 < num_distant_pairs a := by
      simp only [num_distant_pairs]; omega
    rw [n_samples, if_neg h', num_distant_pairs]

/-- C8 witness: a layer with 6 tiles and 3 edges has 12 distant pairs,
so 1000 samples are drawn; one with 3 tiles and 2 edges has 1 distant
pair, so 20 samples are drawn. -/
theorem n_samples_heuristic_witness :
    (8 < (6 : Nat) * (6 - 1) / 2 - ([(0, 1), (1, 2), (2, 3)] : List (Nat × Nat)).length ∧
      n_samples (Aligner.mk [(0, 1), (1, 2), (2, 3)] 6 100 (fun _ _ => 10)) = 1000) ∧
    ((3 : Nat) * (3 - 1) / 2 - ([(0, 1), (1, 2)] : List (Nat × Nat)).length ≤ 8 ∧
      n_samples (Aligner.mk [(0, 1), (1, 2)] 3 100 (fun _ _ => 10)) = 20) :=
  ⟨⟨by decide,
      (n_samples_heuristic (Aligner.mk [(0, 1), (1, 2), (2, 3)] 6 100
        (fun _ _ => 10))).1 (by decide)⟩,
    ⟨by decide,
      by
        have h := (n_samples_heuristic (Aligner.mk [(0, 1), (1, 2)] 3 100
          (fun _ _ => 10))).2 (by decide)
        simpa using h⟩⟩

/-! ## C7 and C10: behaviour of the bounded retry sampling loop. -/

/-- With a positive tile count and a positive max_offset every randint
call succeeds, so every draw succeeds. -/
theorem draw_at_total (a : Aligner) (rand : Nat → Nat) (maxOff : Int)
    (i t : Nat) (h1 : 0 < a.numImages) (h2 : 0 < maxOff) :
    draw_at a rand maxOff i t
      = some (rand ((i * max_tries + t) * 4) % a.numImages,
          rand ((i * max_tries + t) * 4 + 1) % a.numImages,
          rand ((i * max_tries + t) * 4 + 2) % maxOff.toNat,
          rand ((i * max_tries + t) * 4 + 3) % maxOff.toNat) := by
  have hni : ¬ (a.numImages : Int) ≤ 0 := by exact_mod_cast Nat.not_le.mpr h1
  have hmo : ¬ maxOff ≤ 0 := not_le.mpr h2
  simp [draw_at, randint, hni, hmo, Int.toNat_ofNat]

/-- With a positive max_offset of zero, that is when the strip width
reaches the tile height, the very first randint(max_offset) raises. -/
theorem draw_at_none (a : Aligner) (rand : Nat → Nat) (maxOff : Int)
    (i t : Nat) (h2 : maxOff ≤ 0) :
    draw_at a rand maxOff i t = none := by
  by_cases hni : (a.numImages : Int) ≤ 0 <;>
    simp [draw_at, randint, hni, h2]

/-- Unfolding of the retry loop once the current draw is known. -/
theorem strip_try_loop_draw (a : Aligner)
    (nbrOk : Nat → Nat → Nat → Nat → Bool) (rand : Nat → Nat) (w : Nat)
    (maxOff : Int) (i t fuel t1 t2 o1 o2 : Nat)
    (hdraw : draw_at a rand maxOff i t = some (t1, t2, o1, o2)) :
    strip_try_loop a nbrOk rand w maxOff i t fuel
      = if strip_ok a nbrOk w t1 t2 o1 o2 then some (((t1, t2), o1, o2), t + 1)
        else match fuel with
          | 0 => some (((t1, t2), o1, o2), t + 1)
          | fuel' + 1 => strip_try_loop a nbrOk rand w maxOff i (t + 1) fuel' := by
  rw [strip_try_loop, hdraw]

/-- The retry loop always terminates with a pair, and consumes at most
t + fuel + 1 draw attempts, as long as every draw succeeds. -/
theorem strip_try_loop_total (a : Aligner)
    (nbrOk : Nat → Nat → Nat → Nat → Bool) (rand : Nat → Nat) (w : Nat)
    (maxOff : Int) (i : Nat) (h1 : 0 < a.numImages) (h2 : 0 < maxOff) :
    ∀ fuel t, ∃ p k,
      strip_try_loop a nbrOk rand w maxOff i t fuel = some (p, k) ∧
        k ≤ t + fuel + 1 := by
  intro fuel
  induction fuel with
  | zero =>
    intro t
    rw [strip_try_loop_draw a nbrOk rand w maxOff i t 0 _ _ _ _
      (draw_at_total a rand maxOff i t h1 h2)]
    by_cases hok : strip_ok a nbrOk w
        (rand ((i * max_tries + t) * 4) % a.numImages)
        (rand ((i * max_tries + t) * 4 + 1) % a.numImages)
        (rand ((i * max_tries + t) * 4 + 2) % maxOff.toNat)
        (rand ((i * max_tries + t) * 4 + 3) % maxOff.toNat) = true
    · rw [if_pos hok]
      exact ⟨_, t + 1, rfl, by omega⟩
    · rw [if_neg hok]
      exact ⟨_, t + 1, rfl, by omega⟩
  | succ fuel' ih =>
    intro t
    rw [strip_try_loop_draw a nbrOk rand w maxOff i t (fuel' + 1) _ _ _ _
      (draw_at_total a rand maxOff i t h1 h2)]
    by_cases hok : strip_ok a nbrOk w
        (rand ((i * max_tries + t) * 4) % a.numImages)
        (rand ((i * max_tries + t) * 4 + 1) % a.numImages)
        (rand ((i * max_tries + t) * 4 + 2) % maxOff.toNat)
        (rand ((i * max_tries + t) * 4 + 3) % maxOff.toNat) = true
    · rw [if_pos hok]
      exact ⟨_, t + 1, rfl, by omega⟩
    · rw [if_neg hok]
      rcases ih (t + 1) with ⟨p, k, heq, hk⟩
      exact ⟨p, k, heq, by omega⟩

/-- mapM over Option succeeds with a list of the same length when every
element succeeds. -/
theorem mapM_option_total {A B : Type} (f : A → Option B) (xs : List A)
    (h : ∀ x ∈ xs, ∃ y, f x = some y) :
    ∃ l, xs.mapM f = some l ∧ l.length = xs.length := by
  induction xs with
  | nil => exact ⟨[], rfl, rfl⟩
  | cons x rest ih =>
    rcases h x (List.mem_cons_self x rest) with ⟨y, hy⟩
    rcases ih (fun z hz => h z (List.mem_cons_of_mem x hz)) with ⟨l, hl, hlen⟩
    refine ⟨y :: l, ?_, by simp [hlen]⟩
    rw [List.mapM_cons, hy, hl]
    rfl

/-- mapM over Option fails as soon as one element of a nonempty list
fails; here all elements fail. -/
theorem mapM_option_none {A B : Type} (f : A → Option B) (xs : List A)
    (hne : xs ≠ []) (h : ∀ x ∈ xs, f x = none) : xs.mapM f = none := by
  cases xs with
  | nil => exact absurd rfl hne
  | cons x rest =>
    rw [List.mapM_cons, h x (List.mem_cons_self x rest)]
    rfl

/-- C7: in compute_threshold's strip sampling, whenever the random draws
are well formed (positive tile count, positive max_offset), each of the
n pairs is drawn with at most max_tries = 100 attempts; on exhaustion
the last-drawn pair is accepted anyway, so the sampling loop never
raises, never hangs, and always produces exactly n pairs. -/
theorem sampling_total_and_bounded (a : Aligner)
    (nbrOk : Nat → Nat → Nat → Nat → Bool) (rand : Nat → Nat) (w : Nat)
    (maxOff : Int) (n : Nat) (h1 : 0 < a.numImages) (h2 : 0 < maxOff) :
    (∃ l, sample_pairs a nbrOk rand w maxOff n = some l ∧ l.length = n) ∧
    (∀ i, ∃ p k,
      strip_try_loop a nbrOk rand w maxOff i 0 (max_tries - 1) = some (p, k) ∧
        k ≤ max_tries) ∧
    (∀ i t t1 t2 o1 o2,
      draw_at a rand maxOff i t = some (t1, t2, o1, o2) →
      strip_ok a nbrOk w t1 t2 o1 o2 = false →
      strip_try_loop a nbrOk rand w maxOff i t 0 = some (((t1, t2), o1, o2), t + 1)) := by
  refine ⟨?_, ?_, ?_⟩
  · have hone : ∀ i ∈ List.range n, ∃ y,
        sample_one a nbrOk rand w maxOff i = some y := by
      intro i _
      rcases strip_try_loop_total a nbrOk rand w maxOff i h1 h2
        (max_tries - 1) 0 with ⟨p, k, heq, _⟩
      exact ⟨p, by rw [sample_one, heq]; rfl⟩
    rcases mapM_option_total _ _ hone with ⟨l, hl, hlen⟩
    exact ⟨l, hl, by simpa using hlen⟩
  · intro i
    rcases strip_try_loop_total a nbrOk rand w maxOff i h1 h2
      (max_tries - 1) 0 with ⟨p, k, heq, hk⟩
    exact ⟨p, k, heq, by simpa [max_tries] using hk⟩
  · intro i t t1 t2 o1 o2 hdraw hok
    rw [strip_try_loop_draw a nbrOk rand w maxOff i t 0 _ _ _ _ hdraw,
      if_neg (by simp [hok])]

/-- C7 witness: a three-tile, two-edge layer with an always-failing
neighbor test and the identity random stream still yields exactly four
sampled pairs. -/
theorem sampling_total_and_bounded_witness :
    ((0 : Nat) < 3 ∧ (0 : Int) < 5) ∧
    (∃ l, sample_pairs (Aligner.mk [(0, 1), (1, 2)] 3 10 (fun _ _ => 5))
        (fun _ _ _ _ => false) (fun k => k) 5 5 4 = some l ∧ l.length = 4) :=
  ⟨⟨by decide, by decide⟩,
    (sampling_total_and_bounded (Aligner.mk [(0, 1), (1, 2)] 3 10 (fun _ _ => 5))
      (fun _ _ _ _ => false) (fun k => k) 5 5 4 (by decide) (by decide)).1⟩

/-- When n_samples is evaluated the heuristic never returns zero. -/
theorem n_samples_pos (a : Aligner) : 0 < n_samples a := by
  rw [n_samples]
  by_cases h : 8 < num_distant_pairs a <;> simp [h]

/-- C10: when some edge's minimal intersection dimension reaches the full
tile height (and no edge exceeds it), the strip width equals the tile
height, max_offset is zero, the first randint(max_offset) raises
ValueError, and compute_threshold on a graph with more than one edge
fails instead of sampling. -/
theorem compute_threshold_full_overlap_raises (a : Aligner)
    (nbrOk : Nat → Nat → Nat → Nat → Bool) (rand : Nat → Nat)
    (registerStrip : Nat → Nat → Nat → Nat → Rat) (pct : List Rat → Rat)
    (hedges : 1 < a.edges.length)
    (hreach : ∃ e ∈ a.edges, a.minDim e.1 e.2 = a.size0)
    (hle : ∀ e ∈ a.edges, a.minDim e.1 e.2 ≤ a.size0) :
    compute_threshold a nbrOk rand registerStrip pct = none := by
  have hwle : strip_w a ≤ a.size0 := by
    rcases foldl_max_eq_or_mem (widths a) 0 with h0 | hmem
    · rw [strip_w, h0]; exact Nat.zero_le _
    · rcases List.mem_map.mp hmem with ⟨e, he, heq⟩
      rw [strip_w, ← heq]
      exact hle e he
  have hwge : a.size0 ≤ strip_w a := by
    rcases hreach with ⟨e, he, heq⟩
    rw [← heq]
    exact le_foldl_max _ 0 _ (List.mem_map_of_mem _ he)
  have hw : strip_w a = a.size0 := le_antisymm hwle hwge
  have hmo : max_offset a = 0 := by
    rw [max_offset, hw]; omega
  have hnone : ∀ i ∈ List.range (n_samples a),
      sample_one a nbrOk rand (strip_w a) (max_offset a) i = none := by
    intro i _
    rw [sample_one, strip_try_loop,
      draw_at_none a rand (max_offset a) i 0 (by omega)]
    rfl
  have hne : List.range (n_samples a) ≠ [] := by
    have := n_samples_pos a
    cases hn : n_samples a with
    | zero => omega
    | succ m => simp [hn, List.range_succ]
  have hsp : sample_pairs a nbrOk rand (strip_w a) (max_offset a)
      (n_samples a) = none :=
    mapM_option_none _ _ hne hnone
  rw [compute_threshold, if_neg (by omega), hsp]

/-- C10 witness: three tiles of height 5, two edges whose intersections
span the full tile height; threshold computation raises. -/
theorem compute_threshold_full_overlap_raises_witness :
    (1 < ([(0, 1), (1, 2)] : List (Nat × Nat)).length ∧
      (∃ e ∈ ([(0, 1), (1, 2)] : List (Nat × Nat)), (5 : Nat) = 5) ∧
      (∀ e ∈ ([(0, 1), (1, 2)] : List (Nat × Nat)), (5 : Nat) ≤ 5)) ∧
    compute_threshold (Aligner.mk [(0, 1), (1, 2)] 3 5 (fun _ _ => 5))
        (fun _ _ _ _ => true) (fun _ => 0) (fun _ _ _ _ => 0) (fun _ => 0)
      = none :=
  ⟨⟨by decide, ⟨(0, 1), by decide⟩, by decide⟩,
    compute_threshold_full_overlap_raises
      (Aligner.mk [(0, 1), (1, 2)] 3 5 (fun _ _ => 5))
      (fun _ _ _ _ => true) (fun _ => 0) (fun _ _ _ _ => 0) (fun _ => 0)
      (by decide) ⟨(0, 1), by decide, rfl⟩ (fun e _ => by simp)⟩

/-! ## ParallelEdgeAligner.register_all

  The method runs register_pair (ashlar.reg, outside this repository)
  over every graph edge via the unordered executor; register_pair stores
  one (shift, error) record per edge in the private cache.  It then
  snapshots all_errors and rewrites every cached record whose error
  exceeds max_error, or whose shift has a component of absolute value
  above max_shift_pixels, to (shift, np.inf).  Shifts are pairs of
  rationals; errors live in WithTop Rat with top for np.inf, which
  matches IEEE comparisons with infinity for the strict greater-than
  used here. -/

def reject_record (maxError : WithTop Rat) (maxShift : Rat)
    (v : (Rat × Rat) × WithTop Rat) : (Rat × Rat) × WithTop Rat :=
  if maxError < v.2 ∨ maxShift < |v.1.1| ∨ maxShift < |v.1.2| then (v.1, ⊤)
  else v

def edge_register_all (edges : List (Nat × Nat))
    (registerPair : Nat × Nat → (Rat × Rat) × WithTop Rat)
    (maxError : WithTop Rat) (maxShift : Rat) :
    List ((Nat × Nat) × ((Rat × Rat) × WithTop Rat)) :=
  (edges.map (fun e => (e, registerPair e))).map
    (fun r => (r.1, reject_record maxError maxShift r.2))

/-- all_errors is snapshot before the rejection pass, so it holds the raw
errors. -/
def edge_all_errors (edges : List (Nat × Nat))
    (registerPair : Nat × Nat → (Rat × Rat) × WithTop Rat) : List (WithTop Rat) :=
  (edges.map (fun e => (e, registerPair e))).map (fun r => r.2.2)

/-- C4: after register_all, every graph edge has exactly one alignment
record; a record's error is the infinite sentinel exactly when its
computed error exceeds the threshold or its shift magnitude (the largest
absolute shift component, matching np.any on the componentwise test)
exceeds the maximum-shift bound; and the shift vector of every record,
rejected or not, is the computed shift unchanged. -/
theorem edge_register_all_rejection (edges : List (Nat × Nat))
    (registerPair : Nat × Nat → (Rat × Rat) × WithTop Rat)
    (maxError : WithTop Rat) (maxShift : Rat)
    (hnd : edges.Nodup) (e : Nat × Nat) (he : e ∈ edges)
    (hfin : (registerPair e).2 ≠ ⊤) :
    (edge_register_all edges registerPair maxError maxShift).countP
        (fun r => r.1 = e) = 1 ∧
    ∀ r ∈ edge_register_all edges registerPair maxError maxShift, r.1 = e →
      r.2.1 = (registerPair e).1 ∧
      (r.2.2 = ⊤ ↔
        maxError < (registerPair e).2 ∨
          maxShift < max |(registerPair e).1.1| |(registerPair e).1.2|) := by
  constructor
  · rw [edge_register_all, List.countP_map, List.countP_map]
    have : (edges.countP fun x => decide (x = e)) = 1 := by
      have := List.count_eq_one_of_mem hnd he
      simpa [List.count] using this
    simpa [Function.comp] using this
  · intro r hr hre
    rcases List.mem_map.mp hr with ⟨s, hs, hsr⟩
    rcases List.mem_map.mp hs with ⟨e', he', hse⟩
    have hee : e' = e := by
      have h2 : s.1 = e' := by rw [← hse]
      have h1 : r.1 = s.1 := by rw [← hsr]
      rw [← h2, ← h1, hre]
    subst hee
    have hv : r.2 = reject_record maxError maxShift (registerPair e') := by
      rw [← hsr, ← hse]
    rw [hv, reject_record]
    by_cases hc : maxError < (registerPair e').2 ∨
        maxShift < |(registerPair e').1.1| ∨ maxShift < |(registerPair e').1.2|
    · rw [if_pos hc]
      refine ⟨rfl, ?_⟩
      simp only [true_iff]
      rcases hc with h | h | h
      · exact Or.inl h
      · exact Or.inr (lt_max_iff.mpr (Or.inl h))
      · exact Or.inr (lt_max_iff.mpr (Or.inr h))
    · rw [if_neg hc]
      refine ⟨rfl, ?_⟩
      constructor
      · intro htop
        exact absurd htop hfin
      · intro hcond
        exfalso
        apply hc
        rcases hcond with h | h
        · exact Or.inl h
        · rcases lt_max_iff.mp h with h' | h'
          · exact Or.inr (Or.inl h')
          · exact Or.inr (Or.inr h')

/-- C4 witness: on a two-edge layer where edge (0, 1) computes shift
(3, 4) with error 5 against threshold 2, the record for (0, 1) is unique,
keeps its shift, and is rejected to the infinite sentinel. -/
theorem edge_register_all_rejection_witness :
    (([(0, 1), (1, 2)] : List (Nat × Nat)).Nodup ∧
      ((0, 1) : Nat × Nat) ∈ ([(0, 1), (1, 2)] : List (Nat × Nat)) ∧
      ((fun e => if e = ((0, 1) : Nat × Nat)
          then (((3 : Rat), (4 : Rat)), ((5 : Rat) : WithTop Rat))
          else (((1 : Rat), (1 : Rat)), ((1 : Rat) : WithTop Rat))) (0, 1)).2 ≠ ⊤) ∧
    ((edge_register_all [(0, 1), (1, 2)]
        (fun e => if e = ((0, 1) : Nat × Nat)
          then (((3 : Rat), (4 : Rat)), ((5 : Rat) : WithTop Rat))
          else (((1 : Rat), (1 : Rat)), ((1 : Rat) : WithTop Rat)))
        ((2 : Rat) : WithTop Rat) (10 : Rat)).countP
          (fun r => r.1 = ((0, 1) : Nat × Nat)) = 1 ∧
      ∀ r ∈ edge_register_all [(0, 1), (1, 2)]
        (fun e => if e = ((0, 1) : Nat × Nat)
          then (((3 : Rat), (4 : Rat)), ((5 : Rat) : WithTop Rat))
          else (((1 : Rat), (1 : Rat)), ((1 : Rat) : WithTop Rat)))
        ((2 : Rat) : WithTop Rat) (10 : Rat), r.1 = ((0, 1) : Nat × Nat) →
        r.2.1 = (((3 : Rat), (4 : Rat))) ∧
        (r.2.2 = ⊤ ↔
          ((2 : Rat) : WithTop Rat) < ((5 : Rat) : WithTop Rat) ∨
            (10 : Rat) < max |(3 : Rat)| |(4 : Rat)|)) := by
  refine ⟨⟨by decide, by decide, by decide⟩, ?_⟩
  have h := edge_register_all_rejection [(0, 1), (1, 2)]
    (fun e => if e = ((0, 1) : Nat × Nat)
      then (((3 : Rat), (4 : Rat)), ((5 : Rat) : WithTop Rat))
      else (((1 : Rat), (1 : Rat)), ((1 : Rat) : WithTop Rat)))
    ((2 : Rat) : WithTop Rat) (10 : Rat) (by decide) (0, 1) (by decide)
    (by decide)
  simpa using h

/-! ## ParallelMosaic.assemble_channel_parallel

  The canvas is a list of pixel rows.  reader.read composed with
  self.correct_illumination is the external readCorrect; utils.paste
  with pastefunc_blend is the external paste, taking the canvas, the
  corrected tile image and the tile position.  The pasting loop walks
  enumerate(positions) in tile-index order.  The axis flips afterwards
  are translated literally: flip_mosaic_x reassigns each row to its
  reversal, flip_mosaic_y swaps row i with row len - 1 - i for
  i in range(len(out) // 2). -/

structure MosaicCfg where
  shape : Nat × Nat
  flip_mosaic_x : Bool
  flip_mosaic_y : Bool

def zero_canvas (shape : Nat × Nat) : List (List Nat) :=
  List.replicate shape.1 (List.replicate shape.2 0)

def shape_of (c : List (List Nat)) : Nat × Nat :=
  (c.length, (c.headD []).length)

def paste_all (readCorrect : Nat → List (List Nat))
    (paste : List (List Nat) → List (List Nat) → Int × Int → List (List Nat))
    (positions : List (Int × Int)) (out : List (List Nat)) : List (List Nat) :=
  (positions.enum).foldl (fun acc sp => paste acc (readCorrect sp.1) sp.2) out

def flip_x_canvas (c : List (List Nat)) : List (List Nat) :=
  c.map List.reverse

def swap_rows (c : List (List Nat)) (i j : Nat) : List (List Nat) :=
  (c.set i (c.getD j [])).set j (c.getD i [])

def flip_y_canvas (c : List (List Nat)) : List (List Nat) :=
  (List.range (c.length / 2)).foldl
    (fun acc i => swap_rows acc i (c.length - 1 - i)) c

def apply_flips (m : MosaicCfg) (c : List (List Nat)) : List (List Nat) :=
  let c1 := if m.flip_mosaic_x then flip_x_canvas c else c
  if m.flip_mosaic_y then flip_y_canvas c1 else c1

def assemble_channel_parallel (m : MosaicCfg)
    (readCorrect : Nat → List (List Nat))
    (paste : List (List Nat) → List (List Nat) → Int × Int → List (List Nat))
    (positions : List (Int × Int)) (out? : Option (List (List Nat))) :
    Except String (List (List Nat)) :=
  match out? with
  | none =>
    Except.ok (apply_flips m (paste_all readCorrect paste positions
      (zero_canvas m.shape)))
  | some out =>
    if shape_of out ≠ m.shape then
      Except.error "out array shape does not match Mosaic shape"
    else
      Except.ok (apply_flips m (paste_all readCorrect paste positions out))

/-- C5: a caller-supplied canvas of the wrong shape makes the assembler
fail with the mismatch error no matter what the reader, the illumination
correction, the paste function or the positions are, so the failure
happens before any tile is read or pasted and the supplied canvas is
untouched; with no supplied canvas the assembler allocates a
zero-initialized canvas with mosaic-shape many all-zero rows of
mosaic-shape width and pastes into that. -/
theorem assemble_shape_mismatch (m : MosaicCfg) (out : List (List Nat))
    (hmis : shape_of out ≠ m.shape) :
    (∀ readCorrect paste positions,
      assemble_channel_parallel m readCorrect paste positions (some out)
        = Except.error "out array shape does not match Mosaic shape") ∧
    (∀ readCorrect paste positions,
      assemble_channel_parallel m readCorrect paste positions none
        = Except.ok (apply_flips m (paste_all readCorrect paste positions
            (zero_canvas m.shape)))) ∧
    ((zero_canvas m.shape).length = m.shape.1 ∧
      ∀ row ∈ zero_canvas m.shape, row = List.replicate m.shape.2 0) := by
  refine ⟨?_, ?_, ?_, ?_⟩
  · intro readCorrect paste positions
    rw [assemble_channel_parallel, if_pos hmis]
  · intro readCorrect paste positions
    rfl
  · exact List.length_replicate _ _
  · intro row hrow
    exact List.eq_of_mem_replicate hrow

/-- C5 witness: a 1 by 1 canvas supplied for a 2 by 2 mosaic is rejected
with the mismatch error. -/
theorem assemble_shape_mismatch_witness :
    shape_of [[7]] ≠ (MosaicCfg.mk (2, 2) false false).shape ∧
    assemble_channel_parallel (MosaicCfg.mk (2, 2) false false)
        (fun _ => [[1]]) (fun acc _ _ => acc) [((0 : Int), (0 : Int))]
        (some [[7]])
      = Except.error "out array shape does not match Mosaic shape" :=
  ⟨by decide,
    (assemble_shape_mismatch (MosaicCfg.mk (2, 2) false false) [[7]]
      (by decide)).1 (fun _ => [[1]]) (fun acc _ _ => acc)
      [((0 : Int), (0 : Int))]⟩

/-! ## C6: the axis flips act once, globally, after all pastes. -/

theorem swap_rows_length (c : List (List Nat)) (i j : Nat) :
    (swap_rows c i j).length = c.length := by
  simp [swap_rows, List.length_set]

/-- Reading any slot of a simultaneous row swap of rows i and j. -/
theorem swap_rows_getElem? (cv : List (List Nat)) (i j k : Nat)
    (hi : i < cv.length) (hj : j < cv.length) :
    (swap_rows cv i j)[k]? =
      if k = i then cv[j]? else if k = j then cv[i]? else cv[k]? := by
  by_cases hki : k = i
  · by_cases hij : i = j
    · rw [swap_rows, if_pos hki, hki, hij]
      have hlen : j < (cv.set j (cv.getD j [])).length := by
        simpa [List.length_set] using hj
      rw [List.getElem?_set_eq_of_lt _ hlen, List.getD_eq_getElem cv [] hj,
        List.getElem?_eq_getElem hj]
    · rw [swap_rows, if_pos hki, hki,
        List.getElem?_set_ne (fun h => hij h.symm),
        List.getElem?_set_eq_of_lt _ hi, List.getD_eq_getElem cv [] hj,
        List.getElem?_eq_getElem hj]
  · by_cases hkj : k = j
    · rw [swap_rows, if_neg hki, if_pos hkj, hkj]
      have hlen : j < (cv.set i (cv.getD j [])).length := by
        simpa [List.length_set] using hj
      rw [List.getElem?_set_eq_of_lt _ hlen, List.getD_eq_getElem cv [] hi,
        List.getElem?_eq_getElem hi]
    · rw [swap_rows, if_neg hki, if_neg hkj,
        List.getElem?_set_ne (fun h => hkj h.symm),
        List.getElem?_set_ne (fun h => hki h.symm)]

/-- Folding row swaps preserves the canvas height. -/
theorem foldl_swap_length (n : Nat) (ord : List Nat) (l : List (List Nat)) :
    (ord.foldl (fun acc i => swap_rows acc i (n - 1 - i)) l).length
      = l.length := by
  induction ord generalizing l with
  | nil => rfl
  | cons j rest ih => simp [List.foldl_cons, ih, swap_rows_length]

/-- After the first m iterations of the flip loop, positions below m and
positions in the top m rows hold their mirror row, everything else is
untouched. -/
theorem foldl_swap_getElem? (cv : List (List Nat)) (m : Nat) :
    m ≤ cv.length / 2 → ∀ k, k < cv.length →
    ((List.range m).foldl
        (fun acc i => swap_rows acc i (cv.length - 1 - i)) cv)[k]? =
      if k < m ∨ cv.length - m ≤ k then cv[cv.length - 1 - k]? else cv[k]? := by
  induction m with
  | zero =>
    intro hm k hk
    rw [if_neg (by omega)]
    rfl
  | succ m ih =>
    intro hm k hk
    have hm' : m ≤ cv.length / 2 := by omega
    rw [List.range_succ, List.foldl_append, List.foldl_cons, List.foldl_nil]
    have hlen : ((List.range m).foldl
        (fun acc i => swap_rows acc i (cv.length - 1 - i)) cv).length
          = cv.length := foldl_swap_length _ _ _
    have hmlt : m < ((List.range m).foldl
        (fun acc i => swap_rows acc i (cv.length - 1 - i)) cv).length := by
      omega
    have hmirlt : cv.length - 1 - m < ((List.range m).foldl
        (fun acc i => swap_rows acc i (cv.length - 1 - i)) cv).length := by
      omega
    rw [swap_rows_getElem? _ m (cv.length - 1 - m) k hmlt hmirlt]
    by_cases hkm : k = m
    · subst hkm
      rw [if_pos rfl, ih hm' (cv.length - 1 - k) (by omega),
        if_neg (by omega), if_pos (by omega)]
    · by_cases hkmir : k = cv.length - 1 - m
      · by_cases hmid : m = cv.length - 1 - m
        · exact absurd (hkmir.trans hmid.symm) hkm
        · subst hkmir
          rw [if_neg hkm, if_pos rfl, ih hm' m (by omega), if_neg (by omega)]
          have hmm : cv.length - 1 - (cv.length - 1 - m) = m := by omega
          rw [if_pos (by omega), hmm]
      · rw [if_neg hkm, if_neg hkmir, ih hm' k hk]
        by_cases hcond : k < m ∨ cv.length - m ≤ k
        · rw [if_pos hcond, if_pos (by omega)]
        · rw [if_neg hcond, if_neg (by omega)]

/-- The in-place symmetric row-swap loop reverses the row order, for
every canvas height, odd heights included (the middle row maps to
itself). -/
theorem flip_y_canvas_eq_reverse (cv : List (List Nat)) :
    flip_y_canvas cv = cv.reverse := by
  apply List.ext_getElem?
  intro k
  by_cases hk : k < cv.length
  · rw [flip_y_canvas,
      foldl_swap_getElem? cv (cv.length / 2) (le_refl _) k hk,
      List.getElem?_reverse (by simpa using hk)]
    by_cases hcond : k < cv.length / 2 ∨ cv.length - cv.length / 2 ≤ k
    · rw [if_pos hcond]
    · rw [if_neg hcond]
      have hkk : cv.length - 1 - k = k := by omega
      rw [hkk]
  · have h1 : (flip_y_canvas cv).length = cv.length := foldl_swap_length _ _ _
    rw [List.getElem?_eq_none (l := flip_y_canvas cv) (by omega),
      List.getElem?_eq_none (by simp; omega)]

/-- C6: the axis flips are applied exactly once, to the whole assembled
canvas, after all tiles have been pasted and never per tile: with
flip_mosaic_x the assembler returns the unflipped pasted canvas with
every row reversed; with flip_mosaic_y it returns the pasted canvas with
the row order reversed (the in-place swap loop equals list reversal for
every row count, odd heights included); with both flags it returns the
row-reversed canvas with its row order reversed. -/
theorem assemble_applies_flips_once (shape : Nat × Nat)
    (readCorrect : Nat → List (List Nat))
    (paste : List (List Nat) → List (List Nat) → Int × Int → List (List Nat))
    (positions : List (Int × Int)) :
    (∀ cv : List (List Nat), flip_y_canvas cv = cv.reverse) ∧
    (∀ cv : List (List Nat), flip_x_canvas cv = cv.map List.reverse) ∧
    assemble_channel_parallel (MosaicCfg.mk shape true false) readCorrect
        paste positions none
      = Except.ok ((paste_all readCorrect paste positions
          (zero_canvas shape)).map List.reverse) ∧
    assemble_channel_parallel (MosaicCfg.mk shape false true) readCorrect
        paste positions none
      = Except.ok ((paste_all readCorrect paste positions
          (zero_canvas shape)).reverse) ∧
    assemble_channel_parallel (MosaicCfg.mk shape true true) readCorrect
        paste positions none
      = Except.ok (((paste_all readCorrect paste positions
          (zero_canvas shape)).map List.reverse).reverse) ∧
    ∀ out, shape_of out = shape →
      assemble_channel_parallel (MosaicCfg.mk shape true false) readCorrect
          paste positions (some out)
        = Except.ok ((paste_all readCorrect paste positions out).map
            List.reverse) ∧
      assemble_channel_parallel (MosaicCfg.mk shape false true) readCorrect
          paste positions (some out)
        = Except.ok ((paste_all readCorrect paste positions out).reverse) := by
  refine ⟨flip_y_canvas_eq_reverse, fun _ => rfl, rfl, ?_, ?_, ?_⟩
  · show Except.ok (flip_y_canvas (paste_all readCorrect paste positions
      (zero_canvas shape))) = _
    rw [flip_y_canvas_eq_reverse]
  · show Except.ok (flip_y_canvas ((paste_all readCorrect paste positions
      (zero_canvas shape)).map List.reverse)) = _
    rw [flip_y_canvas_eq_reverse]
  · intro out hout
    constructor
    · rw [assemble_channel_parallel, if_neg (by simp [hout])]
      rfl
    · rw [assemble_channel_parallel, if_neg (by simp [hout])]
      show Except.ok (flip_y_canvas (paste_all readCorrect paste positions
        out)) = _
      rw [flip_y_canvas_eq_reverse]

/-- C6 witness: a supplied three-row canvas of the right shape, with an
identity paste over no positions, comes back with its row order reversed
under flip_mosaic_y; the odd middle row stays in place. -/
theorem assemble_applies_flips_once_witness :
    shape_of [[1], [2], [3]] = ((3, 1) : Nat × Nat) ∧
    assemble_channel_parallel (MosaicCfg.mk (3, 1) false true)
        (fun _ => [[0]]) (fun acc _ _ => acc) [] (some [[1], [2], [3]])
      = Except.ok ((paste_all (fun _ => [[0]]) (fun acc _ _ => acc) []
          [[1], [2], [3]]).reverse) :=
  ⟨by decide,
    ((assemble_applies_flips_once (3, 1) (fun _ => [[0]])
      (fun acc _ _ => acc) []).2.2.2.2.2 [[1], [2], [3]] (by decide)).2⟩

/-! ## C9: when the thumbnail step runs

  process_single copies the aligner arguments and sets
  do_make_thumbnail to False exactly when there is a single input file
  (a single cycle); otherwise the flag keeps its constructor default
  (True upstream).  ParallelEdgeAligner.make_thumbnail returns early,
  leaving reader.thumbnail unset, when the flag is false.  The first
  layer's tile count numTiles is threaded through unused, mirroring that
  the source decision never consults it. -/

def ea_thumbnail_flag (defaultFlag : Bool) (numFiles : Nat) : Bool :=
  if numFiles = 1 then false else defaultFlag

def parallel_make_thumbnail (doFlag : Bool) (thumb : Nat)
    (prev : Option Nat) : Option Nat :=
  if doFlag then some thumb else prev

def process_single_thumbnail (defaultFlag : Bool) (numFiles numTiles : Nat)
    (thumb : Nat) : Option Nat :=
  parallel_make_thumbnail (ea_thumbnail_flag defaultFlag numFiles) thumb none

/-- C9 counterexample: a run over a single input file whose layer holds
4 tiles skips the thumbnail even though the layer is multi-tile, so the
thumbnail step is not skipped exactly when the layer has one tile. -/
theorem thumbnail_skip_not_tile_count :
    ¬ (((process_single_thumbnail true 1 4 7).isSome = true) ↔ (4 : Nat) ≠ 1) := by
  decide

/-- C9 amended: the thumbnail step runs exactly when the run has more
than one input file and the upstream default flag is on; the layer's
tile count never enters the decision. -/
theorem thumbnail_skip_iff_single_file (defaultFlag : Bool)
    (numFiles numTiles th : Nat) :
    ((process_single_thumbnail defaultFlag numFiles numTiles th).isSome = true
      ↔ numFiles ≠ 1 ∧ defaultFlag = true) ∧
    (∀ numTiles',
      process_single_thumbnail defaultFlag numFiles numTiles th
        = process_single_thumbnail defaultFlag numFiles numTiles' th) := by
  constructor
  · rw [process_single_thumbnail, parallel_make_thumbnail, ea_thumbnail_flag]
    by_cases h : numFiles = 1 <;> by_cases hd : defaultFlag = true <;>
      simp [h, hd]
  · intro numTiles'
    rfl

end Broadside
